import Mathlib

/-!
Verification of the branch-collection, ranking and presentation pipeline of
git-recent (src/main.cpp): a tool that lists the most recently active branches
of a git repository.  The C++ source is shallowly embedded below; timestamps
and durations are modelled as integers (nanoseconds, the tick of
std::chrono::system_clock on mainstream platforms), machine strings as Lean
strings, and the external collaborators (libgit2, the standard library's
partial-selection sort) by their documented contracts.
-/

namespace GitRecent

/-- One branch snapshot, from struct entry (src/main.cpp:38-51).  The name is
supplied by git_branch_name, is_head records git_branch_is_head(ref) (queried
at render time, src/main.cpp:187), commit_time is git_commit_time(commit) in
whole seconds since the epoch, and summary is git_commit_summary(commit). -/
structure entry where
  name : String
  is_head : Bool
  commit_time : Int
  summary : String
  deriving DecidableEq, Repr

/-- Ticks (nanoseconds) of one second of std::chrono::system_clock. -/
def ns_per_sec : Int := 1000000000

/-- Ticks of one minute (std::chrono::minutes). -/
def ns_per_min : Int := 60 * ns_per_sec

/-- Ticks of one hour (std::chrono::hours). -/
def ns_per_hour : Int := 3600 * ns_per_sec

/-- Ticks of one day (std::chrono::days). -/
def ns_per_day : Int := 86400 * ns_per_sec

/-- A run of k space characters, as produced by stream padding. -/
def spaces (k : Nat) : String := String.mk (List.replicate k ' ')

/-- Right-justification within a field of width w, the effect of
std::setw(w) followed by a right-aligned write: pads on the left with
spaces, and writes the text unchanged when it is already at least w wide. -/
def pad_left (w : Nat) (s : String) : String := spaces (w - s.length) ++ s

/-- Left-justification within a field of width w, the effect of
std::left with std::setw(w): pads on the right with spaces. -/
def pad_right (w : Nat) (s : String) : String := s ++ spaces (w - s.length)

/-- Model of format_duration (src/main.cpp:64-82).  The argument is the
elapsed duration in clock ticks (nanoseconds); duration_cast truncates
toward zero, which is Int.tdiv.  The source computes day, hour and minute
components and then picks a bucket; note that the third branch repeats the
first branch's condition, so the minute bucket is dead code. -/
def format_duration (duration : Int) : String :=
  let d : Int := Int.tdiv duration ns_per_day
  let h : Int := Int.tdiv (duration - d * ns_per_day) ns_per_hour
  let m : Int := Int.tdiv (duration - d * ns_per_day - h * ns_per_hour) ns_per_min
  if d > 0 then pad_left 5 (toString d) ++ "d ago"
  else if h > 0 then pad_left 5 (toString h) ++ "h ago"
  else if d > 0 then pad_left 5 (toString m) ++ "m ago"
  else pad_left 10 "now"

/-- Command-line options (struct options, src/main.cpp:84-87): n is the
requested branch count (0 means all), remote selects remote branches. -/
structure options where
  n : Nat
  remote : Bool

/-- One iteration of the branch loop in collect_branches
(src/main.cpp:126-140), as supplied by the libgit2 provider: either
git_branch_next fails with a non-ITEROVER error, or it yields a reference
whose peel to a commit either fails or produces a complete entry. -/
inductive branch_step where
  | fail (msg : String)
  | ref (peel : Except String entry)

/-- The provider's behaviour for one call of collect_branches: the outcome
of git_branch_iterator_new, then the successive branch iterations; the end
of the list is GIT_ITEROVER. -/
structure branch_source where
  iter_err : Option String
  steps : List branch_step

/-- The branch loop of collect_branches (src/main.cpp:126-140): on a next
error or a peel error the entries gathered so far are returned together
with the error; otherwise every peeled entry is appended in iteration
order. -/
def collect_go : List branch_step → List entry → List entry × Option String
  | [], acc => (acc, none)
  | branch_step.fail m :: _, acc => (acc, some m)
  | branch_step.ref (Except.error m) :: _, acc => (acc, some m)
  | branch_step.ref (Except.ok e) :: rest, acc => collect_go rest (acc ++ [e])

/-- Model of collect_branches (src/main.cpp:118-145): an iterator-creation
failure yields no entries and the error; otherwise the loop runs. -/
def collect_branches (src : branch_source) : List entry × Option String :=
  match src.iter_err with
  | some m => ([], some m)
  | none => collect_go src.steps []

/-- The non-strict ordering induced by the comparator at src/main.cpp:171,
comp a b := a.commit_time > b.commit_time: by_recency a b states that b does
not compare before a, so a may precede b in the sorted prefix. -/
def by_recency (a b : entry) : Prop := b.commit_time ≤ a.commit_time

instance : DecidableRel by_recency :=
  fun a b => (inferInstance : Decidable (b.commit_time ≤ a.commit_time))

/-- Count normalization at src/main.cpp:166-167: zero or an over-large
count becomes the number of branches. -/
def normalize_count (count : Nat) (len : Nat) : Nat :=
  if count = 0 ∨ count > len then len else count

/-- Contract of std::ranges::partial_sort as invoked at src/main.cpp:169-171
with comparator commit_time-descending: the result is a permutation of the
input whose first n elements are the n largest by commit_time, arranged
non-increasingly; the order of the remaining elements, and of equal
commit_times within the prefix, is left unspecified by the standard. -/
def psort_post (l : List entry) (n : Nat) (out : List entry) : Prop :=
  out.Perm l ∧ (out.take n).Pairwise by_recency ∧
    ∀ a ∈ out.take n, ∀ b ∈ out.drop n, b.commit_time ≤ a.commit_time

instance (l : List entry) (n : Nat) (out : List entry) : Decidable (psort_post l n out) :=
  inferInstanceAs (Decidable (out.Perm l ∧ (out.take n).Pairwise by_recency ∧
    ∀ a ∈ out.take n, ∀ b ∈ out.drop n, b.commit_time ≤ a.commit_time))

/-- The ranking step of run (src/main.cpp:166-173): out is a possible value
of the span of the first normalized-count branches after the call of
std::ranges::partial_sort. -/
def select_recent (entries : List entry) (count : Nat) (out : List entry) : Prop :=
  ∃ full, psort_post entries (normalize_count count entries.length) full ∧
    out = full.take (normalize_count count entries.length)

/-- The fixed minimum of the name column (src/main.cpp:175). -/
def min_padding : Nat := 10

/-- The column-width computation at src/main.cpp:176-179: a fold of max
over the rendered entries' name lengths, starting from min_padding. -/
def max_branch_size (recent : List entry) : Nat :=
  recent.foldl (fun a e => max a e.name.length) min_padding

/-- One output line of the print loop (src/main.cpp:183-192): the head
marker, the left-justified name, two spaces, the formatted age, two
spaces, and the commit summary. -/
def render_line (width : Nat) (now : Int) (e : entry) : String :=
  (if e.is_head then "* " else "  ") ++ pad_right width e.name ++ "  " ++
    format_duration (now - e.commit_time * ns_per_sec) ++ "  " ++ e.summary

/-- The full print loop of run (src/main.cpp:181-192): one line per
selected entry, all using the same column width. -/
def render (recent : List entry) (now : Int) : List String :=
  recent.map (render_line (max_branch_size recent) now)

/-- Model of run (src/main.cpp:153-200): a repository-open failure or a
collect_branches failure is returned as the error before anything is
printed; otherwise the collected branches are ranked and rendered.  The
result is a relation because the partial-sort contract leaves tie order
open. -/
def run_spec (open_err : Option String) (src : branch_source) (opts : options)
    (now : Int) (result : Except String (List String)) : Prop :=
  match open_err, collect_branches src with
  | some m, _ => result = Except.error m
  | none, (_, some m) => result = Except.error m
  | none, (branches, none) =>
      ∃ out, select_recent branches opts.n out ∧ result = Except.ok (render out now)

/-- Observable outcome of one process run: exit code, stdout lines and
stderr lines. -/
structure proc_output where
  exit_code : Nat
  std_out : List String
  std_err : List String
  deriving DecidableEq, Repr

/-- Model of main (src/main.cpp:204-216): on a run error exactly one line
is written to stderr and the process exits EXIT_FAILURE; on success the
rendered table is the whole of stdout and the exit code is zero. -/
def main_spec (open_err : Option String) (src : branch_source) (opts : options)
    (now : Int) (po : proc_output) : Prop :=
  ∃ r, run_spec open_err src opts now r ∧
    match r with
    | Except.error m => po = proc_output.mk 1 [] ["error: " ++ m]
    | Except.ok lines => po = proc_output.mk 0 lines []

/-- Reference order for the ranking claims, following the spec's words
(full stable descending sort by commit_time): insertion of one element
into a descending-sorted list, before the first element it is at least as
recent as. -/
def insert_desc (x : entry) : List entry → List entry
  | [] => [x]
  | y :: ys => if y.commit_time ≤ x.commit_time then x :: y :: ys else y :: insert_desc x ys

/-- Reference order for the ranking claims, following the spec's words:
full stable descending insertion sort by commit_time, keeping the input
order of entries with equal commit_time. -/
def stable_sort_desc : List entry → List entry
  | [] => []
  | x :: xs => insert_desc x (stable_sort_desc xs)

/-- Distinctness of ranking keys: no two entries of the list share a
commit_time. -/
def key_distinct (l : List entry) : Prop :=
  l.Pairwise (fun a b => a.commit_time ≠ b.commit_time)

instance (l : List entry) : Decidable (key_distinct l) :=
  inferInstanceAs (Decidable (l.Pairwise fun a b : entry => a.commit_time ≠ b.commit_time))

/-- The provider-owned resources handled by one run: the repository
handle, the branch iterator, and the i-th iteration's reference and
commit. -/
inductive handle where
  | repo_h | iter_h | ref_h (i : Nat) | commit_h (i : Nat)
  deriving DecidableEq, BEq, Repr

/-- Acquisition or release of one resource handle. -/
inductive event where
  | acquire (h : handle) | release (h : handle)
  deriving DecidableEq, BEq, Repr

/-- Resource events of the branch loop (src/main.cpp:126-142), i being the
index of the current iteration: a successful git_branch_next acquires the
reference and a successful peel acquires the commit; the error returns at
src/main.cpp:132 and 137 release nothing, while reaching GIT_ITEROVER
frees the iterator (src/main.cpp:142).  Also returns the indices of the
entries emplaced into the vector and the error outcome. -/
def collect_events : List branch_step → Nat → List event × List Nat × Option String
  | [], _ => ([event.release handle.iter_h], [], none)
  | branch_step.fail m :: _, _ => ([], [], some m)
  | branch_step.ref (Except.error m) :: _, i =>
      ([event.acquire (handle.ref_h i)], [], some m)
  | branch_step.ref (Except.ok _) :: rest, i =>
      match collect_events rest (i + 1) with
      | (ev, held, e) =>
          (event.acquire (handle.ref_h i) :: event.acquire (handle.commit_h i) :: ev,
            i :: held, e)

/-- Resource events of one whole run (src/main.cpp:153-200): the repository
handle is acquired on a successful open and released on every later path
by the unique_ptr; the iterator is acquired when git_branch_iterator_new
succeeds; on the success path the loop at src/main.cpp:194-197 frees each
entry's commit and reference, while on an error return from
collect_branches those frees never run. -/
def run_events (open_err : Option String) (src : branch_source) : List event :=
  match open_err with
  | some _ => []
  | none =>
      event.acquire handle.repo_h ::
        match src.iter_err with
        | some _ => [event.release handle.repo_h]
        | none =>
            event.acquire handle.iter_h ::
              match collect_events src.steps 0 with
              | (ev, _, some _) => ev ++ [event.release handle.repo_h]
              | (ev, held, none) =>
                  ev ++
                    (held.map fun i =>
                      [event.release (handle.commit_h i), event.release (handle.ref_h i)]).flatten ++
                    [event.release handle.repo_h]

/-- A trace is balanced when every handle is released exactly as many
times as it is acquired. -/
def balanced (tr : List event) : Prop :=
  ∀ h : handle, tr.count (event.acquire h) = tr.count (event.release h)

/-- Two branches whose tip commits share a timestamp, in provider order. -/
def tie_a : entry := entry.mk "a" false 5 "sa"

/-- Second branch of the shared-timestamp pair. -/
def tie_b : entry := entry.mk "b" false 5 "sb"

/-- A distinct-timestamp head branch used in witnesses. -/
def w1 : entry := entry.mk "main" true 200 "m"

/-- A distinct-timestamp non-head branch used in witnesses. -/
def w2 : entry := entry.mk "dev" false 100 "d"

/-- The default options: seven branches, local scope (src/main.cpp:97). -/
def opts0 : options := options.mk 7 false

/-- The single-branch snapshot used against the idempotence claim. -/
def e0 : entry := entry.mk "main" true 0 "init"

/-- Provider behaviour delivering exactly the branch e0. -/
def src0 : branch_source := branch_source.mk none [branch_step.ref (Except.ok e0)]

/-- Provider behaviour whose first branch iteration fails. -/
def src_fail : branch_source :=
  branch_source.mk none [branch_step.fail "failed to read reference"]

/-- Inserting into the reference sort permutes a cons. -/
theorem insert_desc_perm (x : entry) (l : List entry) : (insert_desc x l).Perm (x :: l) := by
  induction l with
  | nil => exact List.Perm.refl _
  | cons y ys ih =>
      simp only [insert_desc]
      by_cases h : y.commit_time ≤ x.commit_time
      · rw [if_pos h]
      · rw [if_neg h]
        exact (ih.cons y).trans (List.Perm.swap x y ys)

/-- The reference sort is a permutation of its input. -/
theorem stable_sort_desc_perm (l : List entry) : (stable_sort_desc l).Perm l := by
  induction l with
  | nil => exact List.Perm.refl _
  | cons x xs ih => exact (insert_desc_perm x (stable_sort_desc xs)).trans (ih.cons x)

/-- Membership after insertion into the reference sort. -/
theorem mem_insert_desc {z x : entry} {l : List entry} (h : z ∈ insert_desc x l) :
    z = x ∨ z ∈ l := by
  have h' : z ∈ x :: l := (insert_desc_perm x l).mem_iff.mp h
  simpa using h'

/-- Inserting into a descending-sorted list keeps it descending-sorted. -/
theorem insert_desc_sorted {x : entry} {l : List entry} (hl : l.Pairwise by_recency) :
    (insert_desc x l).Pairwise by_recency := by
  induction l with
  | nil => simp [insert_desc, by_recency]
  | cons y ys ih =>
      simp only [insert_desc]
      by_cases h : y.commit_time ≤ x.commit_time
      · rw [if_pos h]
        refine List.Pairwise.cons ?_ hl
        intro z hz
        rcases List.mem_cons.mp hz with rfl | hz'
        · exact h
        · exact le_trans (List.rel_of_pairwise_cons hl hz') h
      · rw [if_neg h]
        refine List.Pairwise.cons ?_ (ih hl.of_cons)
        intro z hz
        rcases mem_insert_desc hz with rfl | hz'
        · exact le_of_not_le h
        · exact List.rel_of_pairwise_cons hl hz'

/-- The reference sort is descending-sorted by commit_time. -/
theorem stable_sort_desc_sorted (l : List entry) :
    (stable_sort_desc l).Pairwise by_recency := by
  induction l with
  | nil => exact List.Pairwise.nil
  | cons x xs ih => exact insert_desc_sorted ih

/-- Two permuted descending-sorted lists with pairwise-distinct commit_times
are equal. -/
theorem sorted_key_distinct_unique {l₁ l₂ : List entry} (hp : l₁.Perm l₂)
    (h₁ : l₁.Pairwise by_recency) (h₂ : l₂.Pairwise by_recency)
    (hd : key_distinct l₁) : l₁ = l₂ := by
  have hd₂ : l₂.Pairwise fun a b => a.commit_time ≠ b.commit_time :=
    (hp.pairwise_iff fun h => Ne.symm h).mp hd
  have hs₁ : l₁.Pairwise fun a b => b.commit_time < a.commit_time :=
    (h₁.and hd).imp fun h => lt_of_le_of_ne h.1 (Ne.symm h.2)
  have hs₂ : l₂.Pairwise fun a b => b.commit_time < a.commit_time :=
    (h₂.and hd₂).imp fun h => lt_of_le_of_ne h.1 (Ne.symm h.2)
  haveI : IsAntisymm entry fun a b => b.commit_time < a.commit_time :=
    ⟨fun _ _ hab hba => absurd (lt_trans hab hba) (lt_irrefl _)⟩
  exact List.eq_of_perm_of_sorted hp hs₁ hs₂

/-- A descending-sorted list dominates its own suffix elementwise. -/
theorem pairwise_take_drop {l : List entry} (n : Nat) (h : l.Pairwise by_recency) :
    ∀ a ∈ l.take n, ∀ b ∈ l.drop n, b.commit_time ≤ a.commit_time := by
  have he : l = l.take n ++ l.drop n := (List.take_append_drop n l).symm
  rw [he] at h
  exact fun a ha b hb => (List.pairwise_append.mp h).2.2 a ha b hb

/-- The reference sort satisfies the partial-sort contract for every cut
point; in particular conforming outputs always exist. -/
theorem psort_post_stable (l : List entry) (n : Nat) :
    psort_post l n (stable_sort_desc l) :=
  ⟨stable_sort_desc_perm l,
    (stable_sort_desc_sorted l).sublist (List.take_sublist n _),
    pairwise_take_drop n (stable_sort_desc_sorted l)⟩

/-- The normalized count never exceeds the population. -/
theorem normalize_count_le (count len : Nat) : normalize_count count len ≤ len := by
  unfold normalize_count
  split <;> omega

/-- select_recent is total: the truncated reference sort is always an
admissible output. -/
theorem select_recent_total (entries : List entry) (count : Nat) :
    select_recent entries count
      ((stable_sort_desc entries).take (normalize_count count entries.length)) :=
  ⟨stable_sort_desc entries, psort_post_stable _ _, rfl⟩

/-- With pairwise-distinct commit_times the partial-sort contract pins the
printed prefix down to the truncated reference sort. -/
theorem psort_post_take_eq {l : List entry} {n : Nat} {out : List entry}
    (hn : n ≤ l.length) (hd : key_distinct l) (hp : psort_post l n out) :
    out.take n = (stable_sort_desc l).take n := by
  obtain ⟨hperm, hsort, hcross⟩ := hp
  have hBperm := stable_sort_desc_perm (out.drop n)
  have hLperm : (out.take n ++ stable_sort_desc (out.drop n)).Perm l := by
    have h1 : (out.take n ++ stable_sort_desc (out.drop n)).Perm (out.take n ++ out.drop n) :=
      List.Perm.append_left _ hBperm
    rw [List.take_append_drop] at h1
    exact h1.trans hperm
  have hLsort : (out.take n ++ stable_sort_desc (out.drop n)).Pairwise by_recency := by
    refine List.pairwise_append.mpr ⟨hsort, stable_sort_desc_sorted _, ?_⟩
    intro a ha b hb
    exact hcross a ha b (hBperm.mem_iff.mp hb)
  have hssd_perm : (stable_sort_desc l).Perm l := stable_sort_desc_perm l
  have hdL : (out.take n ++ stable_sort_desc (out.drop n)).Pairwise
      fun a b => a.commit_time ≠ b.commit_time :=
    (hLperm.pairwise_iff fun h => Ne.symm h).mpr hd
  have hL_eq : out.take n ++ stable_sort_desc (out.drop n) = stable_sort_desc l :=
    sorted_key_distinct_unique (hLperm.trans hssd_perm.symm) hLsort
      (stable_sort_desc_sorted l) hdL
  have hlenA : (out.take n).length = n := by
    rw [List.length_take]
    have := hperm.length_eq
    omega
  have htake : (out.take n ++ stable_sort_desc (out.drop n)).take n = out.take n := by
    rw [List.take_append_of_le_length (le_of_eq hlenA.symm), List.take_take, Nat.min_self]
  rw [← hL_eq, htake]

/-- With pairwise-distinct commit_times every admissible select_recent
output equals the truncated reference sort. -/
theorem select_recent_eq_of_key_distinct {entries : List entry} {count : Nat}
    {out : List entry} (hd : key_distinct entries)
    (hs : select_recent entries count out) :
    out = (stable_sort_desc entries).take (normalize_count count entries.length) := by
  obtain ⟨full, hp, rfl⟩ := hs
  exact psort_post_take_eq (normalize_count_le _ _) hd hp

/-- Elapsed times of a day or more take the day bucket, printing the
truncated whole-day count right-justified to five characters. -/
theorem format_duration_day {dur : Int} (h : ns_per_day ≤ dur) :
    format_duration dur = pad_left 5 (toString (Int.tdiv dur ns_per_day)) ++ "d ago" := by
  have h0 : (0:Int) < ns_per_day := by decide
  have hdur : (0:Int) ≤ dur := le_trans (le_of_lt h0) h
  have hd : 0 < Int.tdiv dur ns_per_day := by
    rw [Int.tdiv_eq_ediv hdur (le_of_lt h0)]
    have h1 : (1:Int) ≤ dur / ns_per_day := (Int.le_ediv_iff_mul_le h0).mpr (by linarith)
    omega
  simp [format_duration, hd]

/-- Elapsed times of at least an hour but under a day take the hour
bucket, printing the truncated whole-hour count. -/
theorem format_duration_hour {dur : Int} (h1 : ns_per_hour ≤ dur) (h2 : dur < ns_per_day) :
    format_duration dur = pad_left 5 (toString (Int.tdiv dur ns_per_hour)) ++ "h ago" := by
  have hdur : (0:Int) ≤ dur := le_trans (by decide) h1
  have hd0 : Int.tdiv dur ns_per_day = 0 := Int.tdiv_eq_zero_of_lt hdur h2
  have hh : 0 < Int.tdiv dur ns_per_hour := by
    rw [Int.tdiv_eq_ediv hdur (by decide)]
    have hx : (1:Int) ≤ dur / ns_per_hour :=
      (Int.le_ediv_iff_mul_le (by decide)).mpr (by linarith)
    omega
  simp [format_duration, hd0, hh]

/-- Elapsed times under an hour, zero and negative ones included, print
the literal now right-justified to ten characters. -/
theorem format_duration_now {dur : Int} (h : dur < ns_per_hour) :
    format_duration dur = pad_left 10 "now" := by
  rcases le_or_lt 0 dur with hd0 | hneg
  · have hday : Int.tdiv dur ns_per_day = 0 :=
      Int.tdiv_eq_zero_of_lt hd0 (lt_trans h (by decide))
    have hhr : Int.tdiv dur ns_per_hour = 0 := Int.tdiv_eq_zero_of_lt hd0 h
    simp [format_duration, hday, hhr]
  · have hq : Int.tdiv dur ns_per_day ≤ 0 := by
      have h1 : 0 ≤ Int.tdiv (-dur) ns_per_day := Int.tdiv_nonneg (by omega) (by decide)
      have h2 : Int.tdiv (-dur) ns_per_day = -Int.tdiv dur ns_per_day := Int.neg_tdiv _ _
      omega
    have htd : Int.tdiv dur ns_per_day = -((-dur) / ns_per_day) := by
      have h1 : Int.tdiv (-dur) ns_per_day = (-dur) / ns_per_day :=
        Int.tdiv_eq_ediv (by omega) (by decide)
      have h2 : Int.tdiv (-(-dur)) ns_per_day = -Int.tdiv (-dur) ns_per_day := Int.neg_tdiv _ _
      rw [neg_neg] at h2
      rw [h2, h1]
    have hrem : dur - Int.tdiv dur ns_per_day * ns_per_day ≤ 0 := by
      have hedm : (-dur) / ns_per_day * ns_per_day ≤ -dur :=
        Int.ediv_mul_le (-dur) (by decide)
      rw [htd]
      linarith
    have hrdiv : Int.tdiv (dur - Int.tdiv dur ns_per_day * ns_per_day) ns_per_hour ≤ 0 := by
      have h1 : 0 ≤ Int.tdiv (-(dur - Int.tdiv dur ns_per_day * ns_per_day)) ns_per_hour :=
        Int.tdiv_nonneg (by omega) (by decide)
      have h2 : Int.tdiv (-(dur - Int.tdiv dur ns_per_day * ns_per_day)) ns_per_hour =
          -Int.tdiv (dur - Int.tdiv dur ns_per_day * ns_per_day) ns_per_hour :=
        Int.neg_tdiv _ _
      omega
    have hnq : ¬ (0 < Int.tdiv dur ns_per_day) := by omega
    have hnh : ¬ (0 < Int.tdiv (dur - Int.tdiv dur ns_per_day * ns_per_day) ns_per_hour) := by
      omega
    simp [format_duration, hnq, hnh]

/-- Folding max from an initial accumulator equals max of the accumulator
with the fold from zero. -/
theorem foldl_max_eq (l : List Nat) (a : Nat) : l.foldl max a = max a (l.foldr max 0) := by
  induction l generalizing a with
  | nil => simp
  | cons x xs ih => simp [ih (max a x), max_assoc]

/-- A fold of max over a list bounded by b stays bounded by b. -/
theorem foldr_max_le {l : List Nat} {b : Nat} (hb : ∀ x ∈ l, x ≤ b) : l.foldr max 0 ≤ b := by
  induction l with
  | nil => simp
  | cons x xs ih =>
      simp only [List.foldr_cons]
      have hx := hb x (List.mem_cons_self x xs)
      have hxs := ih fun y hy => hb y (List.mem_cons_of_mem x hy)
      omega

/-- The column width is the maximum of the minimum padding and the name
lengths. -/
theorem max_branch_size_eq (recent : List entry) :
    max_branch_size recent = max 10 ((recent.map fun e => e.name.length).foldr max 0) := by
  unfold max_branch_size min_padding
  rw [← List.foldl_map (fun e : entry => e.name.length) max]
  exact foldl_max_eq _ 10

/-- C1: the claim fails on the code.  The comparator at src/main.cpp:171
is strict on commit_time only, and the partial-sort contract leaves the
relative order of equal keys unspecified, so on two entries with equal
commit_time the swapped order is an admissible output of select_recent
while the stable descending sort keeps the input order. -/
theorem C1_tie_order_counterexample :
    select_recent [tie_a, tie_b] 2 [tie_b, tie_a] ∧
      [tie_b, tie_a] ≠
        (stable_sort_desc [tie_a, tie_b]).take (normalize_count 2 [tie_a, tie_b].length) :=
  ⟨⟨[tie_b, tie_a], by decide, by decide⟩, by decide⟩

/-- C1 (amended): whenever the entries' commit_times are pairwise
distinct, every admissible output of select_recent is observably identical
to the full stable descending sort of the input truncated to the
normalized count; with equal commit_times the sort contract leaves the
relative order unspecified, so stability is not guaranteed. -/
theorem C1_select_eq_stable_sort_of_distinct (entries : List entry) (count : Nat)
    (out : List entry) (hd : key_distinct entries)
    (hs : select_recent entries count out) :
    out = (stable_sort_desc entries).take (normalize_count count entries.length) :=
  select_recent_eq_of_key_distinct hd hs

/-- C1 witness: a two-entry distinct-timestamp instance of the amended
claim. -/
theorem C1_select_eq_stable_sort_witness :
    key_distinct [w1, w2] ∧ select_recent [w1, w2] 1 [w1] ∧
      [w1] = (stable_sort_desc [w1, w2]).take (normalize_count 1 [w1, w2].length) := by
  have hd : key_distinct [w1, w2] := by decide
  have hs : select_recent [w1, w2] 1 [w1] := ⟨[w1, w2], by decide, by decide⟩
  exact ⟨hd, hs, C1_select_eq_stable_sort_of_distinct [w1, w2] 1 [w1] hd hs⟩

/-- C2: every admissible output of select_recent is non-increasing in
commit_time, both as a pairwise statement and position by position. -/
theorem C2_output_non_increasing (entries : List entry) (count : Nat) (out : List entry)
    (hs : select_recent entries count out) :
    out.Pairwise by_recency ∧
      ∀ (i j : Nat) (hij : i < j) (hj : j < out.length),
        (out.get ⟨j, hj⟩).commit_time ≤ (out.get ⟨i, Nat.lt_trans hij hj⟩).commit_time := by
  obtain ⟨full, hp, rfl⟩ := hs
  refine ⟨hp.2.1, ?_⟩
  intro i j hij hj
  exact List.pairwise_iff_get.mp hp.2.1 ⟨i, Nat.lt_trans hij hj⟩ ⟨j, hj⟩ hij

/-- C2 witness: an unlimited-count run over two entries supplied in
ascending order comes out descending. -/
theorem C2_output_non_increasing_witness :
    select_recent [w2, w1] 0 [w1, w2] ∧ ([w1, w2] : List entry).Pairwise by_recency := by
  have hs : select_recent [w2, w1] 0 [w1, w2] := ⟨[w1, w2], by decide, by decide⟩
  exact ⟨hs, (C2_output_non_increasing [w2, w1] 0 [w1, w2] hs).1⟩

/-- C3: select_recent always has an output; its length is the population
size capped by the count with zero meaning unlimited, an empty input gives
the empty output, and a zero or over-large count returns the whole
population. -/
theorem C3_output_length (entries : List entry) (count : Nat) :
    (∃ out, select_recent entries count out) ∧
      ∀ out, select_recent entries count out →
        out.length = min (if count = 0 then entries.length else count) entries.length ∧
        (entries = [] → out = []) ∧
        ((count = 0 ∨ entries.length ≤ count) → out.Perm entries) := by
  constructor
  · exact ⟨_, select_recent_total entries count⟩
  · rintro out ⟨full, hp, rfl⟩
    have hlen : full.length = entries.length := hp.1.length_eq
    refine ⟨?_, ?_, ?_⟩
    · rw [List.length_take, hlen]
      unfold normalize_count
      split_ifs <;> omega
    · intro h
      subst h
      have : full = [] := hp.1.eq_nil
      simp [this]
    · intro h
      have hn : normalize_count count entries.length = entries.length := by
        unfold normalize_count
        split <;> omega
      rw [hn, ← hlen, List.take_length]
      exact hp.1

/-- C3 witness: a count above the population returns everything. -/
theorem C3_output_length_witness :
    select_recent [w1] 5 [w1] ∧
      ([w1] : List entry).length = min (if (5:Nat) = 0 then ([w1] : List entry).length else 5)
        ([w1] : List entry).length ∧
      ([w1] : List entry).Perm [w1] := by
  have hs : select_recent [w1] 5 [w1] := ⟨[w1], by decide, by decide⟩
  exact ⟨hs, ((C3_output_length [w1] 5).2 [w1] hs).1,
    ((C3_output_length [w1] 5).2 [w1] hs).2.2 (Or.inr (by decide))⟩

/-- C4: the duration buckets of format_duration.  An elapsed time of at
least one day prints the truncated day count right-justified in a
five-character field before the literal d ago; at least one hour but
under a day prints the truncated hour count the same way before h ago;
anything under an hour prints now right-justified to ten characters, so
no minute bucket is ever produced; and on the spec's boundary cases,
23 hours 59 minutes is the hour bucket, 30 minutes is now, and 25 hours
is one day. -/
theorem C4_duration_buckets :
    (∀ dur : Int, ns_per_day ≤ dur →
        format_duration dur = pad_left 5 (toString (Int.tdiv dur ns_per_day)) ++ "d ago") ∧
      (∀ dur : Int, ns_per_hour ≤ dur → dur < ns_per_day →
        format_duration dur = pad_left 5 (toString (Int.tdiv dur ns_per_hour)) ++ "h ago") ∧
      (∀ dur : Int, dur < ns_per_hour → format_duration dur = pad_left 10 "now") ∧
      format_duration (23 * ns_per_hour + 59 * ns_per_min) = "   23h ago" ∧
      format_duration (30 * ns_per_min) = "       now" ∧
      format_duration (25 * ns_per_hour) = "    1d ago" :=
  ⟨fun _ h => format_duration_day h, fun _ h1 h2 => format_duration_hour h1 h2,
    fun _ h => format_duration_now h, by decide, by decide, by decide⟩

/-- C4 witness: one concrete duration in each bucket. -/
theorem C4_duration_buckets_witness :
    (ns_per_day ≤ 3 * ns_per_day ∧
        format_duration (3 * ns_per_day) =
          pad_left 5 (toString (Int.tdiv (3 * ns_per_day) ns_per_day)) ++ "d ago") ∧
      (ns_per_hour ≤ 5 * ns_per_hour ∧ 5 * ns_per_hour < ns_per_day ∧
        format_duration (5 * ns_per_hour) =
          pad_left 5 (toString (Int.tdiv (5 * ns_per_hour) ns_per_hour)) ++ "h ago") ∧
      (10 * ns_per_min < ns_per_hour ∧
        format_duration (10 * ns_per_min) = pad_left 10 "now") :=
  ⟨⟨by decide, C4_duration_buckets.1 (3 * ns_per_day) (by decide)⟩,
    ⟨by decide, by decide, C4_duration_buckets.2.1 (5 * ns_per_hour) (by decide) (by decide)⟩,
    ⟨by decide, C4_duration_buckets.2.2.1 (10 * ns_per_min) (by decide)⟩⟩

/-- C10: format_duration is total and every elapsed time under one hour,
zero and negative durations included, renders as the literal now
right-justified to ten characters. -/
theorem C10_now_total (dur : Int) (h : dur < ns_per_hour) :
    format_duration dur = pad_left 10 "now" :=
  format_duration_now h

/-- C10 witness: a commit five days in the future still renders as now. -/
theorem C10_now_total_witness :
    -(5 * ns_per_day) < ns_per_hour ∧
      format_duration (-(5 * ns_per_day)) = pad_left 10 "now" :=
  ⟨by decide, C10_now_total (-(5 * ns_per_day)) (by decide)⟩

/-- C5: the name column width is the maximum of ten and the longest
rendered name, exactly ten when every name is at most ten characters,
and an empty entry set renders to zero lines. -/
theorem C5_column_width :
    (∀ recent : List entry, recent ≠ [] →
        max_branch_size recent = max 10 ((recent.map fun e => e.name.length).foldr max 0)) ∧
      (∀ recent : List entry, (∀ e ∈ recent, e.name.length ≤ 10) →
        max_branch_size recent = 10) ∧
      ∀ now : Int, render [] now = [] := by
  refine ⟨fun recent _ => max_branch_size_eq recent, fun recent h => ?_, fun _ => rfl⟩
  rw [max_branch_size_eq recent]
  have hb : (recent.map fun e => e.name.length).foldr max 0 ≤ 10 := by
    refine foldr_max_le ?_
    intro x hx
    obtain ⟨e, he, rfl⟩ := List.mem_map.mp hx
    exact h e he
  omega

/-- C5 witness: a single short-named branch keeps the minimum width. -/
theorem C5_column_width_witness :
    ([w1] : List entry) ≠ [] ∧
      max_branch_size [w1] = max 10 (([w1].map fun e => e.name.length).foldr max 0) ∧
      (∀ e ∈ ([w1] : List entry), e.name.length ≤ 10) ∧ max_branch_size [w1] = 10 :=
  ⟨by decide, C5_column_width.1 [w1] (by decide), by decide,
    C5_column_width.2.1 [w1] (by decide)⟩

/-- C6: every rendered line is exactly the head marker (an asterisk for
the checked-out branch, a blank otherwise), one space, the name
left-justified to the column width, two spaces, the age field, two
spaces, and the verbatim commit summary. -/
theorem C6_line_shape (recent : List entry) (now : Int) :
    render recent now = recent.map fun e =>
      (if e.is_head then "*" else " ") ++ " " ++
        pad_right (max_branch_size recent) e.name ++ "  " ++
        format_duration (now - e.commit_time * ns_per_sec) ++ "  " ++ e.summary := by
  unfold render render_line
  congr 1
  funext e
  by_cases h : e.is_head <;>
    simp only [h, if_true, if_false, String.append_assoc] <;> rfl

/-- C7: whenever the provider fails, at repository open, iterator
creation, branch iteration or peeling, the run aborts: the exit code is
non-zero, exactly one line goes to the error stream, and nothing at all,
not even a partial table, goes to the output stream. -/
theorem C7_provider_failure_aborts (open_err : Option String) (src : branch_source)
    (opts : options) (now : Int) (po : proc_output)
    (hfail : open_err ≠ none ∨ (collect_branches src).2 ≠ none)
    (hm : main_spec open_err src opts now po) :
    po.exit_code ≠ 0 ∧ po.std_err.length = 1 ∧ po.std_out = [] := by
  obtain ⟨r, hrun, hmatch⟩ := hm
  unfold run_spec at hrun
  cases open_err with
  | some m =>
      have hr : r = Except.error m := hrun
      subst hr
      have hpo : po = proc_output.mk 1 [] ["error: " ++ m] := hmatch
      subst hpo
      exact ⟨Nat.one_ne_zero, rfl, rfl⟩
  | none =>
      rcases hc : collect_branches src with ⟨branches, oerr⟩
      rw [hc] at hrun
      cases oerr with
      | some m =>
          have hr : r = Except.error m := hrun
          subst hr
          have hpo : po = proc_output.mk 1 [] ["error: " ++ m] := hmatch
          subst hpo
          exact ⟨Nat.one_ne_zero, rfl, rfl⟩
      | none =>
          rcases hfail with h1 | h2
          · exact absurd rfl h1
          · rw [hc] at h2
            exact absurd rfl h2

/-- C7 witness: a failing repository open aborts the run. -/
theorem C7_provider_failure_aborts_witness :
    ((some "not a git repository" : Option String) ≠ none ∨
        (collect_branches (branch_source.mk none [])).2 ≠ none) ∧
      main_spec (some "not a git repository") (branch_source.mk none []) opts0 0
        (proc_output.mk 1 [] ["error: " ++ "not a git repository"]) ∧
      (proc_output.mk 1 [] ["error: " ++ "not a git repository"]).exit_code ≠ 0 ∧
      (proc_output.mk 1 [] ["error: " ++ "not a git repository"]).std_err.length = 1 ∧
      (proc_output.mk 1 [] ["error: " ++ "not a git repository"]).std_out = [] := by
  have hf : (some "not a git repository" : Option String) ≠ none ∨
      (collect_branches (branch_source.mk none [])).2 ≠ none := Or.inl (by decide)
  have hm : main_spec (some "not a git repository") (branch_source.mk none []) opts0 0
      (proc_output.mk 1 [] ["error: " ++ "not a git repository"]) :=
    ⟨Except.error "not a git repository", rfl, rfl⟩
  exact ⟨hf, hm, C7_provider_failure_aborts _ _ _ _ _ hf hm⟩

/-- C8: the claim fails on the code.  The pipeline reads the wall clock
(src/main.cpp:181), so two runs over the identical snapshot and options
taken at different times produce different bytes: thirty minutes after
the commit the age column shows now, two hours after it shows 2h ago. -/
theorem C8_clock_counterexample :
    main_spec none src0 opts0 (30 * ns_per_min)
        (proc_output.mk 0 (render [e0] (30 * ns_per_min)) []) ∧
      main_spec none src0 opts0 (2 * ns_per_hour)
        (proc_output.mk 0 (render [e0] (2 * ns_per_hour)) []) ∧
      (proc_output.mk 0 (render [e0] (30 * ns_per_min)) []).std_out ≠
        (proc_output.mk 0 (render [e0] (2 * ns_per_hour)) []).std_out :=
  ⟨⟨Except.ok (render [e0] (30 * ns_per_min)),
      ⟨[e0], ⟨[e0], by decide, by decide⟩, rfl⟩, rfl⟩,
    ⟨Except.ok (render [e0] (2 * ns_per_hour)),
      ⟨[e0], ⟨[e0], by decide, by decide⟩, rfl⟩, rfl⟩,
    by decide⟩

/-- C8 (amended): with the clock reading fixed alongside the snapshot and
the options, and commit_times pairwise distinct so that the sort contract
admits a single order, any two runs produce identical output, error and
exit code. -/
theorem C8_deterministic_of_fixed_clock (open_err : Option String) (src : branch_source)
    (opts : options) (now : Int) (po1 po2 : proc_output)
    (hd : key_distinct (collect_branches src).1)
    (h1 : main_spec open_err src opts now po1)
    (h2 : main_spec open_err src opts now po2) : po1 = po2 := by
  obtain ⟨r1, hrun1, hm1⟩ := h1
  obtain ⟨r2, hrun2, hm2⟩ := h2
  unfold run_spec at hrun1 hrun2
  cases open_err with
  | some m =>
      have e1 : r1 = Except.error m := hrun1
      have e2 : r2 = Except.error m := hrun2
      subst e1
      subst e2
      have p1 : po1 = proc_output.mk 1 [] ["error: " ++ m] := hm1
      have p2 : po2 = proc_output.mk 1 [] ["error: " ++ m] := hm2
      rw [p1, p2]
  | none =>
      rcases hc : collect_branches src with ⟨branches, oerr⟩
      rw [hc] at hrun1 hrun2 hd
      cases oerr with
      | some m =>
          have e1 : r1 = Except.error m := hrun1
          have e2 : r2 = Except.error m := hrun2
          subst e1
          subst e2
          have p1 : po1 = proc_output.mk 1 [] ["error: " ++ m] := hm1
          have p2 : po2 = proc_output.mk 1 [] ["error: " ++ m] := hm2
          rw [p1, p2]
      | none =>
          obtain ⟨out1, hs1, e1⟩ := hrun1
          obtain ⟨out2, hs2, e2⟩ := hrun2
          have hd' : key_distinct branches := hd
          have h12 : out1 = out2 := by
            rw [select_recent_eq_of_key_distinct hd' hs1,
              select_recent_eq_of_key_distinct hd' hs2]
          have e1' : r1 = Except.ok (render out1 now) := e1
          have e2' : r2 = Except.ok (render out2 now) := e2
          subst e1'
          subst e2'
          have p1 : po1 = proc_output.mk 0 (render out1 now) [] := hm1
          have p2 : po2 = proc_output.mk 0 (render out2 now) [] := hm2
          rw [p1, p2, h12]

/-- C8 witness: the single-branch snapshot at a fixed clock reading. -/
theorem C8_deterministic_witness :
    key_distinct (collect_branches src0).1 ∧
      main_spec none src0 opts0 0 (proc_output.mk 0 (render [e0] 0) []) ∧
      proc_output.mk 0 (render [e0] 0) [] = proc_output.mk 0 (render [e0] 0) [] := by
  have hd : key_distinct (collect_branches src0).1 := by decide
  have hm : main_spec none src0 opts0 0 (proc_output.mk 0 (render [e0] 0) []) :=
    ⟨Except.ok (render [e0] 0), ⟨[e0], ⟨[e0], by decide, by decide⟩, rfl⟩, rfl⟩
  exact ⟨hd, hm, C8_deterministic_of_fixed_clock none src0 opts0 0 _ _ hd hm hm⟩

/-- C9: the claim is right and the code is wrong.  When git_branch_next
fails, collect_branches returns at src/main.cpp:132 without freeing the
branch iterator acquired at src/main.cpp:123, so the trace of that run
acquires iter_h once and never releases it: the resources are not all
released on this exit path. -/
theorem C9_iterator_leak :
    (run_events none src_fail).count (event.acquire handle.iter_h) = 1 ∧
      (run_events none src_fail).count (event.release handle.iter_h) = 0 ∧
      ¬ balanced (run_events none src_fail) :=
  ⟨by decide, by decide, fun hb => absurd (hb handle.iter_h) (by decide)⟩

end GitRecent
